import Mathlib

/-!
Shallow embedding of `src/generic/canbus.c` (serial-over-CAN transport for a
microcontroller node), together with proofs of the specified properties.

Modelling conventions:
* C `uint8_t` / `uint32_t` values are `Nat` with explicit `% 2^32` where the C
  arithmetic can wrap.
* The fixed byte arrays (`transmit_buf[96]`, `receive_buf[192]`, the 6-byte
  UUID, frame payloads) are `List Nat` of the corresponding length.
* Hardware calls (`canbus_send`, `canbus_read`, `canbus_set_filter`,
  `shutdown`) are modelled as oracles / collected effects: a transition
  returns the new state together with the list of frames handed to the
  hardware, the list of filter reconfigurations, and an optional fatal
  shutdown message.
-/

set_option maxRecDepth 8000

namespace Canbus

/-- Width of C `uint32_t` arithmetic. -/
def U32 : Nat := 2 ^ 32

/-- A raw CAN frame handed to `canbus_send`: identifier and payload bytes. -/
structure Frame where
  fid : Nat
  payload : List Nat
  deriving Repr, DecidableEq

/-- Admin response identifier `CANBUS_ID_ADMIN_RESP` (abstract protocol
constant from `canbus.h`; its exact value is irrelevant to the module). -/
def CANBUS_ID_ADMIN_RESP : Nat := 0x321

/-- Response tag `CANBUS_RESP_NEED_CANID`. -/
def CANBUS_RESP_NEED_CANID : Nat := 32

/-- Response tag `CANBUS_RESP_HAVE_CANID`. -/
def CANBUS_RESP_HAVE_CANID : Nat := 33

/-- The identity state of the device: `canbus_assigned_id` and
`canbus_uuid` (6 bytes). -/
structure CanState where
  assigned : Nat
  uuid : List Nat
  deriving Repr, DecidableEq

/-- Effects of processing one admin command: resulting identity state, the
filter reconfigurations requested (`canbus_set_filter` arguments, in order),
the frames sent (in order), and the fatal `shutdown` message if one was
raised. -/
structure AdminEffects where
  state : CanState
  filters : List Nat
  frames : List Frame
  shutd : Option String
  deriving Repr, DecidableEq

/-- Model of `can_check_uuid`: `len >= 7 && memcmp(&data[1], canbus_uuid, 6) == 0`. -/
def can_check_uuid (len : Nat) (data : List Nat) (uuid : List Nat) : Bool :=
  decide (7 ≤ len) && decide ((data.drop 1).take 6 = uuid)

/-- Model of `can_encode_id`: `0` when unassigned, else `(canbus_assigned_id - 0x100) >> 1`
in `uint32_t` arithmetic. -/
def can_encode_id (assigned : Nat) : Nat :=
  if assigned = 0 then 0 else ((assigned + U32 - 0x100) % U32) / 2

/-- Model of `can_decode_id`: `(encoded_id << 1) + 0x100` (result converted to
`uint32_t`). -/
def can_decode_id (encoded_id : Nat) : Nat :=
  (2 * encoded_id + 0x100) % U32

/-- The 8-byte payload built by `can_send_uuid`: response tag, the 6 UUID
bytes, then the encoded current address. -/
def can_send_uuid_frame (s : CanState) : Frame :=
  ⟨CANBUS_ID_ADMIN_RESP,
    (if s.assigned ≠ 0 then CANBUS_RESP_HAVE_CANID else CANBUS_RESP_NEED_CANID)
      :: s.uuid ++ [can_encode_id s.assigned]⟩

/-- Model of `can_process_set_canid`: ignore short frames; on a matching UUID adopt the
requested id (reconfiguring the filter when it changes) and answer; on a
non-matching UUID whose requested id collides with ours, self-evict, answer,
and shut down. -/
def can_process_set_canid (len : Nat) (data : List Nat) (s : CanState) :
    AdminEffects :=
  if len < 8 then ⟨s, [], [], none⟩
  else
    let newid := can_decode_id (data.getD 7 0)
    if can_check_uuid len data s.uuid then
      if newid ≠ s.assigned then
        let s' : CanState := { s with assigned := newid }
        ⟨s', [newid], [can_send_uuid_frame s'], none⟩
      else
        ⟨s, [], [can_send_uuid_frame s], none⟩
    else if newid = s.assigned then
      let s' : CanState := { s with assigned := 0 }
      ⟨s', [0], [can_send_uuid_frame s'], some "Another CAN node assigned this ID"⟩
    else
      ⟨s, [], [], none⟩

/-- The set of addresses a `SET_CANID` command can actually assign with a
nonzero (non-reserved) encoded byte: `can_decode_id e` for `e ∈ [1, 255]`. -/
def validAssignedAddr (x : Nat) : Prop :=
  x % 2 = 0 ∧ 0x102 ≤ x ∧ x ≤ 0x2FE

instance (x : Nat) : Decidable (validAssignedAddr x) := by
  unfold validAssignedAddr; infer_instance

/-! ### Transmit pipeline (`canbus_tx_task`, `console_sendf`) -/

/-- State touched by the transmit pipeline: `transmit_buf[96]`,
`transmit_pos`, `transmit_max`, plus the `canbus_assigned_id` the chunker
reads. -/
structure TxState where
  buf : List Nat
  pos : Nat
  max : Nat
  assigned : Nat
  deriving Repr, DecidableEq

/-- The send loop of `canbus_tx_task`: while bytes remain, attempt one
`canbus_send` of `min(8, tmax - tpos)` bytes at offset `tpos`; a non-positive
result stops the loop.  `send k` is the hardware's result for the `k`-th
attempt of this run.  Returns the final `tpos` and the frames the hardware
accepted, in order. -/
def txLoop (send : Nat → Int) (fid : Nat) (buf : List Nat) :
    Nat → Nat → Nat → Nat × List Frame
  | tpos, tmax, k =>
    if h : tmax ≤ tpos then (tpos, [])
    else
      let now := min 8 (tmax - tpos)
      if send k ≤ 0 then (tpos, [])
      else
        let r := txLoop send fid buf (tpos + now) tmax (k + 1)
        (r.1, ⟨fid, (buf.drop tpos).take now⟩ :: r.2)
  termination_by tpos tmax k => tmax - tpos
  decreasing_by
    simp only [not_le] at h
    omega

/-- Model of `canbus_tx_task`: return immediately unless woken; with no assigned
address discard the buffer; otherwise run the send loop addressed to
`canbus_assigned_id + 1` and store the final position. -/
def canbus_tx_task (wake : Bool) (send : Nat → Int) (s : TxState) :
    TxState × List Frame :=
  if ¬wake then (s, [])
  else if s.assigned = 0 then ({ s with pos := 0, max := 0 }, [])
  else
    let r := txLoop send (s.assigned + 1) s.buf s.pos s.max 0
    ({ s with pos := r.1 }, r.2)

/-- Value of `sizeof(transmit_buf)`. -/
def TRANSMIT_CAP : Nat := 96

/-- Body of `console_sendf` after the drained-buffer cursor reset, with
`tpos`/`tmax` the (possibly reset) local cursor values: drop the message if
it cannot fit even after compaction, compact (move the unsent bytes
`[tpos, tmax)` down to offset 0) when that makes it fit, then encode `msg`
(of declared maximum size `max_size`, actual length `msg.length` — the
result of `command_encode_and_frame`) at `transmit_max` and advance it.
The `Bool` result records whether `canbus_notify_tx` was called. -/
def console_sendf_core (msg : List Nat) (max_size : Nat) (s : TxState)
    (tpos tmax : Nat) : TxState × Bool :=
  if TRANSMIT_CAP < tmax + max_size then
    if TRANSMIT_CAP < tmax + max_size - tpos then
      -- Not enough space for message
      ({ s with pos := tpos, max := tmax }, false)
    else
      -- Move buffer, then generate message
      let n := tmax - tpos
      let buf1 := (s.buf.drop tpos).take n ++ s.buf.drop n
      let buf2 := buf1.take n ++ msg ++ buf1.drop (n + msg.length)
      ({ s with buf := buf2, pos := 0, max := n + msg.length }, true)
  else
    let buf2 := s.buf.take tmax ++ msg ++ s.buf.drop (tmax + msg.length)
    ({ s with buf := buf2, pos := tpos, max := tmax + msg.length }, true)

/-- Model of `console_sendf`: when `transmit_pos >= transmit_max` on entry, both the
global and local cursors are reset to 0 before anything else; the rest of
the body is `console_sendf_core`. -/
def console_sendf (msg : List Nat) (max_size : Nat) (s : TxState) :
    TxState × Bool :=
  if s.max ≤ s.pos then console_sendf_core msg max_size s 0 0
  else console_sendf_core msg max_size s s.pos s.max

/-- Split a byte list into successive chunks of at most 8 bytes (the shape
in which the send loop puts buffered bytes on the wire). -/
def chunk8 (l : List Nat) : List (List Nat) :=
  if h : l = [] then [] else l.take 8 :: chunk8 (l.drop 8)
  termination_by l.length
  decreasing_by
    have : 0 < l.length := List.length_pos.mpr h
    simp only [List.length_drop]
    omega

/-- The cursor/capacity invariant of the transmit buffer. -/
def TxInv (s : TxState) : Prop :=
  s.pos ≤ s.max ∧ s.max ≤ TRANSMIT_CAP ∧ s.buf.length = TRANSMIT_CAP

instance (s : TxState) : Decidable (TxInv s) := by
  unfold TxInv; infer_instance

/-- A sequence of `console_sendf` calls, in order. -/
def enqueueAll (msgs : List (List Nat × Nat)) (s : TxState) : TxState :=
  msgs.foldl (fun t p => (console_sendf p.1 p.2 t).1) s

/-! ### Receive pipeline (`can_process_data`, `canbus_rx_task`) -/

/-- Value of `sizeof(receive_buf)` (`RECEIVE_WINDOW`). -/
def RECEIVE_CAP : Nat := 192

/-- State touched by the receive pipeline: `receive_buf[192]` and
`receive_pos`. -/
structure RxState where
  buf : List Nat
  pos : Nat
  deriving Repr, DecidableEq

/-- Model of `can_process_data`: clamp the incoming length to the space left in
`receive_buf`, copy that many payload bytes at `receive_pos`, and advance
`receive_pos`. -/
def can_process_data (data : List Nat) (r : RxState) : RxState :=
  let len := min data.length (RECEIVE_CAP - r.pos)
  ⟨r.buf.take r.pos ++ data.take len ++ r.buf.drop (r.pos + len), r.pos + len⟩

/-- The data-frame appends performed by one wake of `canbus_rx_task`'s drain
loop: each drained frame whose identifier matched `canbus_assigned_id` calls
`can_process_data` on its payload, in arrival order. -/
def rx_drain (payloads : List (List Nat)) (r : RxState) : RxState :=
  payloads.foldl (fun r d => can_process_data d r) r

/-- The message-boundary step at the end of `canbus_rx_task`:
`command_find_and_dispatch` (an external oracle, modelled by its result
`found` and the `pop_count` it reports) consumed a prefix; if bytes remain
after it they are shifted to the start of the buffer and the task is
re-woken (`canbus_notify_rx`).  The `Bool` result records the re-wake. -/
def canbus_rx_dispatch_step (found : Bool) (pop_count : Nat) (r : RxState) :
    RxState × Bool :=
  if found then
    let needcopy := r.pos - pop_count
    if needcopy ≠ 0 then
      (⟨(r.buf.drop pop_count).take needcopy ++ r.buf.drop needcopy, needcopy⟩,
        true)
    else
      (⟨r.buf, needcopy⟩, false)
  else
    (r, false)

/-! ### Helper lemmas -/

/-- Unfolding equation for `can_process_set_canid`. -/
lemma can_process_set_canid_eq (len : Nat) (data : List Nat) (s : CanState) :
    can_process_set_canid len data s =
      if len < 8 then ⟨s, [], [], none⟩
      else if can_check_uuid len data s.uuid then
        if can_decode_id (data.getD 7 0) ≠ s.assigned then
          ⟨{ s with assigned := can_decode_id (data.getD 7 0) },
            [can_decode_id (data.getD 7 0)],
            [can_send_uuid_frame
              { s with assigned := can_decode_id (data.getD 7 0) }], none⟩
        else ⟨s, [], [can_send_uuid_frame s], none⟩
      else if can_decode_id (data.getD 7 0) = s.assigned then
        ⟨{ s with assigned := 0 }, [0],
          [can_send_uuid_frame { s with assigned := 0 }],
          some "Another CAN node assigned this ID"⟩
      else ⟨s, [], [], none⟩ := rfl

/-- Byte 7 of a response payload `tag :: uuid ++ [b]` with a 6-byte UUID is
`b`. -/
lemma payload_byte7 (a b y : Nat) (l : List Nat) (h : l.length = 6) :
    (a :: l ++ [b]).getD 7 y = b := by
  match l, h with
  | [u0, u1, u2, u3, u4, u5], _ => rfl

/-- Decoding a byte value computes to `2 * e + 0x100`. -/
lemma can_decode_id_byte (e : Nat) (he : e ≤ 255) :
    can_decode_id e = 2 * e + 0x100 := by
  simp only [can_decode_id, U32]
  omega

/-- Decoding a byte value never returns 0. -/
lemma can_decode_id_ne_zero (e : Nat) (he : e ≤ 255) : can_decode_id e ≠ 0 := by
  rw [can_decode_id_byte e he]
  omega

/-- Encoding inverts decoding on byte values. -/
lemma can_encode_decode (e : Nat) (he : e ≤ 255) :
    can_encode_id (can_decode_id e) = e := by
  rw [can_decode_id_byte e he]
  have hnz : 2 * e + 0x100 ≠ 0 := by omega
  simp only [can_encode_id, hnz, if_false, U32]
  omega

/-- The response frame of a state with a nonzero assigned id carries the
`HAVE_CANID` tag and the encoded id. -/
lemma can_send_uuid_frame_assigned (s : CanState) (h : s.assigned ≠ 0) :
    can_send_uuid_frame s =
      ⟨CANBUS_ID_ADMIN_RESP,
        CANBUS_RESP_HAVE_CANID :: s.uuid ++ [can_encode_id s.assigned]⟩ := by
  simp only [can_send_uuid_frame, ne_eq, h, not_false_eq_true, if_true]

/-! ### Helper lemmas for the transmit pipeline -/

lemma chunk8_nil : chunk8 [] = [] := by
  rw [chunk8]
  simp

lemma chunk8_length_le (l : List Nat) : ∀ c ∈ chunk8 l, c.length ≤ 8 := by
  induction l using chunk8.induct with
  | case1 =>
      rw [chunk8_nil]
      intro c hc
      exact absurd hc (List.not_mem_nil c)
  | case2 l h ih =>
      rw [chunk8, dif_neg h]
      intro c hc
      rcases List.mem_cons.mp hc with h1 | h2
      · subst h1
        simp only [List.length_take]
        omega
      · exact ih c h2

/-- The send loop never moves `tpos` backwards nor past `max tpos tmax`. -/
lemma txLoop_bounds (send : Nat → Int) (fid : Nat) (buf : List Nat) :
    ∀ tpos tmax k, tpos ≤ (txLoop send fid buf tpos tmax k).1 ∧
      (txLoop send fid buf tpos tmax k).1 ≤ max tpos tmax := by
  intro tpos tmax k
  induction tpos, tmax, k using txLoop.induct send fid buf with
  | case1 tpos tmax k h =>
      rw [txLoop]
      simp only [dif_pos h]
      omega
  | case2 tpos tmax k h hsend =>
      rw [txLoop]
      simp only [dif_neg h, if_pos hsend]
      omega
  | case3 tpos tmax k h now hsend ih =>
      have hnow : now = min 8 (tmax - tpos) := rfl
      rw [txLoop]
      simp only [dif_neg h, if_neg hsend]
      rw [← hnow]
      obtain ⟨ih1, ih2⟩ := ih
      constructor
      · omega
      · omega

/-- The frames produced by the send loop: all addressed to `fid`, each at
most 8 bytes, their concatenation is exactly the byte range the loop
consumed, and the loop stops only at the end of the data or at the first
non-positive send result. -/
lemma txLoop_frames (send : Nat → Int) (fid : Nat) (buf : List Nat) :
    ∀ tpos tmax k,
      (∀ f ∈ (txLoop send fid buf tpos tmax k).2,
        f.fid = fid ∧ f.payload.length ≤ 8) ∧
      ((txLoop send fid buf tpos tmax k).2.map Frame.payload).flatten =
        (buf.drop tpos).take ((txLoop send fid buf tpos tmax k).1 - tpos) ∧
      (tpos ≤ tmax →
        ((txLoop send fid buf tpos tmax k).1 = tmax ∨
          send (k + (txLoop send fid buf tpos tmax k).2.length) ≤ 0)) := by
  intro tpos tmax k
  induction tpos, tmax, k using txLoop.induct send fid buf with
  | case1 tpos tmax k h =>
      rw [txLoop]
      simp only [dif_pos h]
      refine ⟨by intro f hf; exact absurd hf (List.not_mem_nil f), ?_, ?_⟩
      · simp
      · intro hle
        left
        omega
  | case2 tpos tmax k h hsend =>
      rw [txLoop]
      simp only [dif_neg h, if_pos hsend]
      refine ⟨by intro f hf; exact absurd hf (List.not_mem_nil f), ?_, ?_⟩
      · simp
      · intro hle
        right
        simpa using hsend
  | case3 tpos tmax k h now hsend ih =>
      have hnow : now = min 8 (tmax - tpos) := rfl
      obtain ⟨ihf, ihj, ihs⟩ := ih
      have hb := txLoop_bounds send fid buf (tpos + now) tmax (k + 1)
      rw [txLoop]
      simp only [dif_neg h, if_neg hsend]
      rw [← hnow]
      refine ⟨?_, ?_, ?_⟩
      · intro f hf
        rcases List.mem_cons.mp hf with h1 | h2
        · subst h1
          refine ⟨rfl, ?_⟩
          simp only [List.length_take]
          omega
        · exact ihf f h2
      · simp only [List.map_cons, List.flatten_cons]
        rw [ihj]
        have h1 : (txLoop send fid buf (tpos + now) tmax (k + 1)).1 - tpos =
            now + ((txLoop send fid buf (tpos + now) tmax (k + 1)).1 -
              (tpos + now)) := by
          omega
        rw [h1, List.take_add, List.drop_drop]
      · intro hle
        have h2 : tpos + now ≤ tmax := by omega
        rcases ihs h2 with hh | hh
        · left
          exact hh
        · right
          have h3 : k + ((⟨fid, (buf.drop tpos).take now⟩ : Frame) ::
              (txLoop send fid buf (tpos + now) tmax (k + 1)).2).length =
              k + 1 + (txLoop send fid buf (tpos + now) tmax (k + 1)).2.length := by
            simp only [List.length_cons]
            omega
          rw [h3]
          exact hh

/-- With an always-accepting hardware send, the loop drains `[tpos, tmax)`
completely, emitting exactly the 8-byte chunking of that byte range. -/
lemma txLoop_success (send : Nat → Int) (fid : Nat) (buf : List Nat)
    (hs : ∀ j, 0 < send j) :
    ∀ tpos tmax k, tpos ≤ tmax → tmax ≤ buf.length →
      txLoop send fid buf tpos tmax k =
        (tmax, (chunk8 ((buf.drop tpos).take (tmax - tpos))).map
          (fun c => ⟨fid, c⟩)) := by
  intro tpos tmax k
  induction tpos, tmax, k using txLoop.induct send fid buf with
  | case1 tpos tmax k h =>
      intro hle hbuf
      have he : tpos = tmax := le_antisymm hle h
      subst he
      rw [txLoop]
      simp only [dif_pos le_rfl]
      rw [Nat.sub_self, List.take_zero, chunk8_nil]
      rfl
  | case2 tpos tmax k h hsend =>
      intro hle hbuf
      exact absurd (hs k) (not_lt.mpr hsend)
  | case3 tpos tmax k h now hsend ih =>
      intro hle hbuf
      have hnow : now = min 8 (tmax - tpos) := rfl
      have hlt : tpos < tmax := not_le.mp h
      have h2 : tpos + now ≤ tmax := by omega
      have hslen : ((buf.drop tpos).take (tmax - tpos)).length = tmax - tpos := by
        simp only [List.length_take, List.length_drop]
        omega
      have hsne : (buf.drop tpos).take (tmax - tpos) ≠ [] := by
        intro hx
        rw [hx] at hslen
        simp at hslen
        omega
      have hhd : ((buf.drop tpos).take (tmax - tpos)).take 8 =
          (buf.drop tpos).take now := by
        rw [List.take_take, ← hnow]
      have htl : ((buf.drop tpos).take (tmax - tpos)).drop 8 =
          (buf.drop (tpos + now)).take (tmax - (tpos + now)) := by
        rw [List.drop_take, List.drop_drop]
        by_cases h8 : 8 ≤ tmax - tpos
        · have h9 : now = 8 := by omega
          rw [h9]
          have h10 : tmax - tpos - 8 = tmax - (tpos + 8) := by omega
          rw [h10]
        · have h0 : tmax - tpos - 8 = 0 := by omega
          have h0' : tmax - (tpos + now) = 0 := by omega
          rw [h0, h0', List.take_zero, List.take_zero]
      have hc : chunk8 ((buf.drop tpos).take (tmax - tpos)) =
          (buf.drop tpos).take now ::
            chunk8 ((buf.drop (tpos + now)).take (tmax - (tpos + now))) := by
        rw [chunk8, dif_neg hsne, hhd, htl]
      rw [txLoop]
      simp only [dif_neg h, if_neg hsend]
      rw [← hnow, ih h2 hbuf, hc, List.map_cons]

/-- Evaluation of `console_sendf_core` in the drop branch. -/
lemma console_sendf_core_drop (msg : List Nat) (max_size : Nat) (s : TxState)
    (tpos tmax : Nat) (h1 : TRANSMIT_CAP < tmax + max_size)
    (h2 : TRANSMIT_CAP < tmax + max_size - tpos) :
    console_sendf_core msg max_size s tpos tmax =
      ({ s with pos := tpos, max := tmax }, false) := by
  rw [console_sendf_core, if_pos h1, if_pos h2]

/-- Evaluation of `console_sendf_core` in the compaction branch. -/
lemma console_sendf_core_compact (msg : List Nat) (max_size : Nat)
    (s : TxState) (tpos tmax : Nat) (h1 : TRANSMIT_CAP < tmax + max_size)
    (h2 : ¬ TRANSMIT_CAP < tmax + max_size - tpos) :
    console_sendf_core msg max_size s tpos tmax =
      ({ s with
          buf := ((s.buf.drop tpos).take (tmax - tpos) ++ s.buf.drop (tmax - tpos)).take (tmax - tpos)
            ++ msg ++
            ((s.buf.drop tpos).take (tmax - tpos) ++ s.buf.drop (tmax - tpos)).drop (tmax - tpos + msg.length),
          pos := 0, max := tmax - tpos + msg.length }, true) := by
  rw [console_sendf_core, if_pos h1, if_neg h2]

/-- Evaluation of `console_sendf_core` in the plain-append branch. -/
lemma console_sendf_core_fit (msg : List Nat) (max_size : Nat) (s : TxState)
    (tpos tmax : Nat) (h1 : ¬ TRANSMIT_CAP < tmax + max_size) :
    console_sendf_core msg max_size s tpos tmax =
      ({ s with
          buf := s.buf.take tmax ++ msg ++ s.buf.drop (tmax + msg.length),
          pos := tpos, max := tmax + msg.length }, true) := by
  rw [console_sendf_core, if_neg h1]

/-- When the buffer starts at `pos = 0` and the declared size fits without
compaction, `console_sendf` appends the encoded message after the valid
data. -/
lemma console_sendf_append (msg : List Nat) (max_size : Nat) (s : TxState)
    (hpos : s.pos = 0) (hfit : s.max + max_size ≤ TRANSMIT_CAP) :
    console_sendf msg max_size s =
      ({ s with
          buf := s.buf.take s.max ++ msg ++ s.buf.drop (s.max + msg.length),
          pos := 0, max := s.max + msg.length }, true) := by
  have h1 : ¬ TRANSMIT_CAP < s.max + max_size := by omega
  rw [console_sendf, hpos]
  by_cases hm0 : s.max ≤ 0
  · have hm : s.max = 0 := by omega
    rw [if_pos hm0, console_sendf_core_fit msg max_size s 0 0 (by omega), hm]
  · rw [if_neg hm0, console_sendf_core_fit msg max_size s 0 s.max h1]

/-- Enqueues that all fit accumulate their messages in order after the
existing data. -/
lemma enqueueAll_spec (msgs : List (List Nat × Nat)) :
    ∀ s : TxState, s.pos = 0 → s.buf.length = TRANSMIT_CAP →
      (∀ p ∈ msgs, (p : List Nat × Nat).1.length ≤ p.2) →
      s.max + (msgs.map Prod.snd).sum ≤ TRANSMIT_CAP →
      (enqueueAll msgs s).pos = 0 ∧
      (enqueueAll msgs s).max = s.max + (msgs.map (fun p => p.1.length)).sum ∧
      (enqueueAll msgs s).buf.length = TRANSMIT_CAP ∧
      (enqueueAll msgs s).assigned = s.assigned ∧
      (enqueueAll msgs s).buf.take (enqueueAll msgs s).max =
        s.buf.take s.max ++ (msgs.map Prod.fst).flatten := by
  induction msgs with
  | nil =>
      intro s h0 hlen _ _
      refine ⟨h0, by simp [enqueueAll], by simp [enqueueAll, hlen], rfl, ?_⟩
      simp [enqueueAll]
  | cons p rest ih =>
      intro s h0 hlen hall hbud
      have hps : p.1.length ≤ p.2 := hall p (List.mem_cons_self p rest)
      have hbud1 : s.max + p.2 ≤ TRANSMIT_CAP := by
        have := hbud
        simp only [List.map_cons, List.sum_cons] at this
        omega
      have hstep := console_sendf_append p.1 p.2 s h0 hbud1
      have hmaxle : s.max ≤ TRANSMIT_CAP := by omega
      set s1 : TxState :=
        { s with
            buf := s.buf.take s.max ++ p.1 ++ s.buf.drop (s.max + p.1.length),
            pos := 0, max := s.max + p.1.length } with hs1
      have hlen1 : s1.buf.length = TRANSMIT_CAP := by
        simp only [hs1, List.length_append, List.length_take, List.length_drop,
          hlen]
        omega
      have hek : enqueueAll (p :: rest) s = enqueueAll rest s1 := by
        simp only [enqueueAll, List.foldl_cons, hstep]
      have hbud2 : s1.max + (rest.map Prod.snd).sum ≤ TRANSMIT_CAP := by
        simp only [List.map_cons, List.sum_cons] at hbud
        simp only [hs1]
        omega
      obtain ⟨c1, c2, c3, c4, c5⟩ := ih s1 rfl hlen1
        (fun q hq => hall q (List.mem_cons_of_mem p hq)) hbud2
      rw [hek]
      refine ⟨c1, ?_, c3, c4, ?_⟩
      · rw [c2]
        simp only [hs1, List.map_cons, List.sum_cons]
        omega
      · rw [c5]
        have hA : (s.buf.take s.max).length = s.max := by
          simp only [List.length_take, hlen]
          omega
        have hB : s1.buf.take s1.max = s.buf.take s.max ++ p.1 := by
          simp only [hs1]
          rw [List.append_assoc,
            show s.max + p.1.length = (s.buf.take s.max).length + p.1.length
              from by rw [hA],
            List.take_append, List.take_left' rfl]
        rw [hB, List.map_cons, List.flatten_cons, List.append_assoc]

/-! ### Theorems: admin protocol -/

/-- C1: a `SET_CANID` frame with payload length ≥ 8 whose UUID does not
match this device but whose requested (decoded) address equals the current
`canbus_assigned_id`: processing clears the assigned id to 0, reconfigures
the receive filter to 0, emits exactly one `NEED_CANID` response frame whose
byte 7 encodes the now-unassigned address as 0, and raises exactly one fatal
shutdown with a descriptive cause. -/
theorem set_canid_collision_self_evicts
    (len : Nat) (data : List Nat) (s : CanState)
    (hlen : 8 ≤ len) (huuid : s.uuid.length = 6)
    (hcheck : can_check_uuid len data s.uuid = false)
    (hcoll : can_decode_id (data.getD 7 0) = s.assigned) :
    can_process_set_canid len data s =
      ⟨{ s with assigned := 0 }, [0],
        [⟨CANBUS_ID_ADMIN_RESP, CANBUS_RESP_NEED_CANID :: s.uuid ++ [0]⟩],
        some "Another CAN node assigned this ID"⟩ ∧
    (can_process_set_canid len data s).frames.map
        (fun f => f.payload.getD 7 1) = [0] := by
  have h8 : ¬ len < 8 := by omega
  have hchk : ¬ can_check_uuid len data s.uuid = true := by
    rw [hcheck]; exact Bool.false_ne_true
  have heff : can_process_set_canid len data s =
      ⟨{ s with assigned := 0 }, [0],
        [can_send_uuid_frame { s with assigned := 0 }],
        some "Another CAN node assigned this ID"⟩ := by
    rw [can_process_set_canid_eq, if_neg h8, if_neg hchk, if_pos hcoll]
  have hframe : can_send_uuid_frame { s with assigned := 0 } =
      ⟨CANBUS_ID_ADMIN_RESP, CANBUS_RESP_NEED_CANID :: s.uuid ++ [0]⟩ := by
    simp [can_send_uuid_frame, can_encode_id]
  rw [heff, hframe]
  refine ⟨rfl, ?_⟩
  have hb := payload_byte7 CANBUS_RESP_NEED_CANID 0 1 s.uuid huuid
  simp only [List.map_cons, List.map_nil]
  rw [hb]

/-- Witness for C1 at a concrete collision frame. -/
theorem set_canid_collision_self_evicts_witness :
    can_process_set_canid 8 [2, 9, 9, 9, 9, 9, 9, 1]
        ⟨0x102, [1, 2, 3, 4, 5, 6]⟩ =
      ⟨⟨0, [1, 2, 3, 4, 5, 6]⟩, [0],
        [⟨CANBUS_ID_ADMIN_RESP,
          CANBUS_RESP_NEED_CANID :: [1, 2, 3, 4, 5, 6] ++ [0]⟩],
        some "Another CAN node assigned this ID"⟩ :=
  (set_canid_collision_self_evicts 8 [2, 9, 9, 9, 9, 9, 9, 1]
    ⟨0x102, [1, 2, 3, 4, 5, 6]⟩ (by decide) (by decide) (by decide)
    (by decide)).1

/-- C2: a `SET_CANID` frame with payload length ≥ 8 and a matching UUID:
when the decoded requested address differs from the current one, the assigned
id is updated and the filter reconfigured to it; in every matching case
exactly one `HAVE_CANID` response is emitted whose byte 7 equals the
requested encoded byte (the encoding of the new current address), and no
shutdown is raised. -/
theorem set_canid_match_assigns
    (len : Nat) (data : List Nat) (s : CanState) (n : Nat)
    (hlen : 8 ≤ len) (hbyte : data.getD 7 0 ≤ 255) (huuid : s.uuid.length = 6)
    (hcheck : can_check_uuid len data s.uuid = true)
    (hn : n = can_decode_id (data.getD 7 0)) :
    (can_process_set_canid len data s).state.assigned = n ∧
    (n ≠ s.assigned →
      (can_process_set_canid len data s).state = { s with assigned := n } ∧
      (can_process_set_canid len data s).filters = [n]) ∧
    (n = s.assigned →
      (can_process_set_canid len data s).state = s ∧
      (can_process_set_canid len data s).filters = []) ∧
    (can_process_set_canid len data s).frames =
      [⟨CANBUS_ID_ADMIN_RESP,
        CANBUS_RESP_HAVE_CANID :: s.uuid ++ [data.getD 7 0]⟩] ∧
    (can_process_set_canid len data s).frames.map
        (fun f => f.payload.getD 7 256) = [data.getD 7 0] ∧
    (can_process_set_canid len data s).shutd = none := by
  have h8 : ¬ len < 8 := by omega
  have hnz : n ≠ 0 := hn ▸ can_decode_id_ne_zero _ hbyte
  have henc : can_encode_id n = data.getD 7 0 := hn ▸ can_encode_decode _ hbyte
  have hb7 : ∀ m : List Frame,
      m = [⟨CANBUS_ID_ADMIN_RESP,
              CANBUS_RESP_HAVE_CANID :: s.uuid ++ [data.getD 7 0]⟩] →
      m.map (fun f : Frame => f.payload.getD 7 256) = [data.getD 7 0] := by
    intro m hm
    rw [hm]
    have hb := payload_byte7 CANBUS_RESP_HAVE_CANID (data.getD 7 0) 256
      s.uuid huuid
    simp only [List.map_cons, List.map_nil]
    rw [hb]
  by_cases hne : can_decode_id (data.getD 7 0) = s.assigned
  · have heff : can_process_set_canid len data s =
        ⟨s, [], [can_send_uuid_frame s], none⟩ := by
      rw [can_process_set_canid_eq, if_neg h8, if_pos hcheck,
        if_neg (not_not_intro hne)]
    have hsa : s.assigned = n := by omega
    have hframe : can_send_uuid_frame s =
        ⟨CANBUS_ID_ADMIN_RESP,
          CANBUS_RESP_HAVE_CANID :: s.uuid ++ [data.getD 7 0]⟩ := by
      rw [can_send_uuid_frame_assigned s (by omega), hsa, henc]
    rw [heff, hframe]
    exact ⟨hsa, fun h => absurd hsa.symm h, fun _ => ⟨rfl, rfl⟩, rfl,
      hb7 _ rfl, rfl⟩
  · have hne' : n ≠ s.assigned := by omega
    have heff : can_process_set_canid len data s =
        ⟨{ s with assigned := can_decode_id (data.getD 7 0) },
          [can_decode_id (data.getD 7 0)],
          [can_send_uuid_frame
            { s with assigned := can_decode_id (data.getD 7 0) }], none⟩ := by
      rw [can_process_set_canid_eq, if_neg h8, if_pos hcheck, if_pos hne]
    have hframe : can_send_uuid_frame
        { s with assigned := can_decode_id (data.getD 7 0) } =
        ⟨CANBUS_ID_ADMIN_RESP,
          CANBUS_RESP_HAVE_CANID :: s.uuid ++ [data.getD 7 0]⟩ := by
      rw [can_send_uuid_frame_assigned _ (can_decode_id_ne_zero _ hbyte)]
      show (⟨CANBUS_ID_ADMIN_RESP, CANBUS_RESP_HAVE_CANID :: s.uuid ++
        [can_encode_id (can_decode_id (data.getD 7 0))]⟩ : Frame) = _
      rw [can_encode_decode _ hbyte]
    rw [heff, hframe]
    exact ⟨hn.symm, fun _ => ⟨by rw [hn], by rw [hn]⟩,
      fun h => absurd h hne', rfl, hb7 _ rfl, rfl⟩

/-- Witness for C2 at a concrete matching frame requesting encoded byte 5. -/
theorem set_canid_match_assigns_witness :
    (can_process_set_canid 8 [2, 1, 2, 3, 4, 5, 6, 5]
        ⟨0, [1, 2, 3, 4, 5, 6]⟩).state.assigned = 0x10A :=
  (set_canid_match_assigns 8 [2, 1, 2, 3, 4, 5, 6, 5] ⟨0, [1, 2, 3, 4, 5, 6]⟩
    0x10A (by decide) (by decide) (by decide) (by decide) (by decide)).1

/-- C8: the functions `can_decode_id` and `can_encode_id` round-trip on every valid
assigned address; the mapping between valid assigned addresses and nonzero
encoded bytes is a bijection (two-sided inverse), and encoded value 0 is
reserved for the unassigned state (`can_encode_id 0 = 0`). -/
theorem can_id_roundtrip :
    (∀ x, validAssignedAddr x → can_decode_id (can_encode_id x) = x) ∧
    (∀ e, 1 ≤ e → e ≤ 255 →
      validAssignedAddr (can_decode_id e) ∧
      can_encode_id (can_decode_id e) = e) ∧
    can_encode_id 0 = 0 := by
  refine ⟨fun x hx => ?_, fun e h1 h255 => ⟨?_, can_encode_decode e h255⟩,
    by simp [can_encode_id]⟩
  · obtain ⟨heven, hlo, hhi⟩ := hx
    have hx0 : x ≠ 0 := by omega
    have henc : can_encode_id x = (x - 0x100) / 2 := by
      simp only [can_encode_id, hx0, if_false, U32]
      omega
    have hb : (x - 0x100) / 2 ≤ 255 := by omega
    rw [henc, can_decode_id_byte _ hb]
    omega
  · rw [can_decode_id_byte e h255]
    simp only [validAssignedAddr]
    omega

/-- Witness for C8 at address `0x10A` (encoded byte 5) and byte 7. -/
theorem can_id_roundtrip_witness :
    can_decode_id (can_encode_id 0x10A) = 0x10A ∧
    can_encode_id (can_decode_id 7) = 7 :=
  ⟨can_id_roundtrip.1 0x10A (by decide),
    (can_id_roundtrip.2.1 7 (by decide) (by decide)).2⟩

/-- C10: the value `can_decode_id` of a byte is `2*e + 0x100`, never 0; hence a
matching-UUID `SET_CANID` (length ≥ 8) always leaves a nonzero assigned id,
and an unassigned device (`canbus_assigned_id = 0`) never raises a shutdown
from any `SET_CANID` frame — with a non-matching UUID the frame is a
complete no-op. -/
theorem set_canid_unassigned_never_shuts_down :
    (∀ e, e ≤ 255 → can_decode_id e = 2 * e + 0x100 ∧ can_decode_id e ≠ 0) ∧
    (∀ len data s, 8 ≤ len → data.getD 7 0 ≤ 255 →
      can_check_uuid len data s.uuid = true →
      (can_process_set_canid len data s).state.assigned ≠ 0) ∧
    (∀ len data s, s.assigned = 0 → data.getD 7 0 ≤ 255 →
      (can_process_set_canid len data s).shutd = none ∧
      (can_check_uuid len data s.uuid = false →
        can_process_set_canid len data s = ⟨s, [], [], none⟩)) := by
  refine ⟨fun e he => ⟨can_decode_id_byte e he, can_decode_id_ne_zero e he⟩,
    fun len data s hlen hbyte hcheck => ?_,
    fun len data s h0 hbyte => ⟨?_, fun hcheck => ?_⟩⟩
  · have h8 : ¬ len < 8 := by omega
    rw [can_process_set_canid_eq, if_neg h8, if_pos hcheck]
    by_cases hne : can_decode_id (data.getD 7 0) ≠ s.assigned
    · rw [if_pos hne]
      exact can_decode_id_ne_zero _ hbyte
    · rw [if_neg hne]
      rw [not_not] at hne
      rw [← hne]
      exact can_decode_id_ne_zero _ hbyte
  · have hne : ¬ can_decode_id (data.getD 7 0) = s.assigned := by
      rw [h0]; exact can_decode_id_ne_zero _ hbyte
    rw [can_process_set_canid_eq]
    by_cases h8 : len < 8
    · rw [if_pos h8]
    · rw [if_neg h8]
      by_cases hchk : can_check_uuid len data s.uuid = true
      · rw [if_pos hchk, if_pos hne]
      · rw [if_neg hchk, if_neg hne]
  · have hne : ¬ can_decode_id (data.getD 7 0) = s.assigned := by
      rw [h0]; exact can_decode_id_ne_zero _ hbyte
    have hchk : ¬ can_check_uuid len data s.uuid = true := by
      rw [hcheck]; exact Bool.false_ne_true
    rw [can_process_set_canid_eq]
    by_cases h8 : len < 8
    · rw [if_pos h8]
    · rw [if_neg h8, if_neg hchk, if_neg hne]

/-- Witness for C10: decode of byte 5 is `0x10A ≠ 0`; a matching `SET_CANID`
from the unassigned state yields a nonzero id; a non-matching one is a
no-op with no shutdown. -/
theorem set_canid_unassigned_never_shuts_down_witness :
    can_decode_id 5 = 0x10A ∧
    (can_process_set_canid 8 [2, 1, 2, 3, 4, 5, 6, 5]
      ⟨0, [1, 2, 3, 4, 5, 6]⟩).state.assigned ≠ 0 ∧
    (can_process_set_canid 8 [2, 9, 9, 9, 9, 9, 9, 5]
      ⟨0, [1, 2, 3, 4, 5, 6]⟩).shutd = none :=
  ⟨(set_canid_unassigned_never_shuts_down.1 5 (by decide)).1,
    set_canid_unassigned_never_shuts_down.2.1 8 [2, 1, 2, 3, 4, 5, 6, 5]
      ⟨0, [1, 2, 3, 4, 5, 6]⟩ (by decide) (by decide) (by decide),
    (set_canid_unassigned_never_shuts_down.2.2 8 [2, 9, 9, 9, 9, 9, 9, 5]
      ⟨0, [1, 2, 3, 4, 5, 6]⟩ rfl (by decide)).1⟩

/-! ### Theorems: transmit pipeline -/

/-- C4: when the unsent byte count plus the declared maximum size
exceeds the 96-byte transmit capacity, `console_sendf` drops the message:
no encoding happens (the buffer bytes are untouched), the limit does not
increase, the unsent region's contents are preserved, and no transmit is
signalled; no error reaches the caller. -/
theorem console_sendf_drops_when_full
    (msg : List Nat) (max_size : Nat) (s : TxState)
    (hinv : s.pos ≤ s.max)
    (hfull : TRANSMIT_CAP < s.max - s.pos + max_size) :
    (console_sendf msg max_size s).2 = false ∧
    (console_sendf msg max_size s).1.buf = s.buf ∧
    (console_sendf msg max_size s).1.max -
      (console_sendf msg max_size s).1.pos = s.max - s.pos ∧
    ((console_sendf msg max_size s).1.buf.drop
        (console_sendf msg max_size s).1.pos).take
        ((console_sendf msg max_size s).1.max -
          (console_sendf msg max_size s).1.pos) =
      (s.buf.drop s.pos).take (s.max - s.pos) ∧
    (console_sendf msg max_size s).1.max ≤ s.max := by
  by_cases hr : s.max ≤ s.pos
  · have hpm : s.pos = s.max := le_antisymm hinv hr
    have h1 : TRANSMIT_CAP < 0 + max_size := by omega
    have h2 : TRANSMIT_CAP < 0 + max_size - 0 := by omega
    have hc : console_sendf msg max_size s =
        ({ s with pos := 0, max := 0 }, false) := by
      rw [console_sendf, if_pos hr,
        console_sendf_core_drop msg max_size s 0 0 h1 h2]
    rw [hc]
    refine ⟨rfl, rfl, by show (0:Nat) - 0 = s.max - s.pos; omega, ?_,
      Nat.zero_le _⟩
    show (s.buf.drop 0).take (0 - 0) = (s.buf.drop s.pos).take (s.max - s.pos)
    rw [show s.max - s.pos = 0 from by omega]
    simp
  · have h1 : TRANSMIT_CAP < s.max + max_size := by omega
    have h2 : TRANSMIT_CAP < s.max + max_size - s.pos := by omega
    have hc : console_sendf msg max_size s =
        ({ s with pos := s.pos, max := s.max }, false) := by
      rw [console_sendf, if_neg hr,
        console_sendf_core_drop msg max_size s s.pos s.max h1 h2]
    rw [hc]
    exact ⟨rfl, rfl, rfl, rfl, le_rfl⟩

/-- Witness for C4: an enqueue of declared size 10 with 90 unsent bytes is
dropped. -/
theorem console_sendf_drops_when_full_witness :
    (console_sendf [1, 2, 3] 10 ⟨List.replicate 96 7, 0, 90, 5⟩).2 = false ∧
    (console_sendf [1, 2, 3] 10 ⟨List.replicate 96 7, 0, 90, 5⟩).1.buf =
      List.replicate 96 7 :=
  have h := console_sendf_drops_when_full [1, 2, 3] 10
    ⟨List.replicate 96 7, 0, 90, 5⟩ (by decide) (by decide)
  ⟨h.1, h.2.1⟩

/-- C5: the enqueue `console_sendf` resets both cursors to 0 before any space check
or encoding whenever `position = limit` on entry; and when the declared
size does not fit after `limit` but fits after compaction, the unsent bytes
are shifted to offset 0, `position` becomes 0, and the message is encoded
right after them, `limit` becoming unsent-count + encoded-length, with a
transmit signalled. -/
theorem console_sendf_reset_then_compacts
    (msg : List Nat) (max_size : Nat) (s : TxState)
    (hms : msg.length ≤ max_size) (hinv : s.pos ≤ s.max)
    (hmax : s.max ≤ TRANSMIT_CAP) (hlen : s.buf.length = TRANSMIT_CAP) :
    (s.pos = s.max →
      console_sendf msg max_size s =
        console_sendf msg max_size { s with pos := 0, max := 0 }) ∧
    (TRANSMIT_CAP < s.max + max_size →
      s.max - s.pos + max_size ≤ TRANSMIT_CAP →
      (console_sendf msg max_size s).1.pos = 0 ∧
      (console_sendf msg max_size s).1.max = s.max - s.pos + msg.length ∧
      (console_sendf msg max_size s).1.buf.take
          (s.max - s.pos + msg.length) =
        (s.buf.drop s.pos).take (s.max - s.pos) ++ msg ∧
      (console_sendf msg max_size s).2 = true) := by
  constructor
  · intro hpm
    have hr : s.max ≤ s.pos := le_of_eq hpm.symm
    have hr' : ({ s with pos := 0, max := 0 } : TxState).max ≤
        ({ s with pos := 0, max := 0 } : TxState).pos := le_rfl
    rw [console_sendf, if_pos hr, console_sendf, if_pos hr']
    rfl
  · intro h1 h2
    by_cases hr : s.max ≤ s.pos
    · have hpm : s.pos = s.max := le_antisymm hinv hr
      have hn0 : s.max - s.pos = 0 := by omega
      have hfit : ¬ TRANSMIT_CAP < 0 + max_size := by omega
      have hc : console_sendf msg max_size s =
          ({ s with
              buf := s.buf.take 0 ++ msg ++ s.buf.drop (0 + msg.length),
              pos := 0, max := 0 + msg.length }, true) := by
        rw [console_sendf, if_pos hr,
          console_sendf_core_fit msg max_size s 0 0 hfit]
      rw [hc, hn0]
      refine ⟨rfl, rfl, ?_, rfl⟩
      show (s.buf.take 0 ++ msg ++ s.buf.drop (0 + msg.length)).take
          (0 + msg.length) = (s.buf.drop s.pos).take 0 ++ msg
      simp only [List.take_zero, List.nil_append, Nat.zero_add]
      rw [List.take_left' rfl]
    · have h2' : ¬ TRANSMIT_CAP < s.max + max_size - s.pos := by omega
      have hc : console_sendf msg max_size s =
          ({ s with
              buf := ((s.buf.drop s.pos).take (s.max - s.pos) ++
                  s.buf.drop (s.max - s.pos)).take (s.max - s.pos)
                ++ msg ++
                ((s.buf.drop s.pos).take (s.max - s.pos) ++
                  s.buf.drop (s.max - s.pos)).drop
                  (s.max - s.pos + msg.length),
              pos := 0, max := s.max - s.pos + msg.length }, true) := by
        rw [console_sendf, if_neg hr,
          console_sendf_core_compact msg max_size s s.pos s.max h1 h2']
      have hAlen : ((s.buf.drop s.pos).take (s.max - s.pos)).length =
          s.max - s.pos := by
        simp only [List.length_take, List.length_drop, hlen]
        omega
      have hA : ((s.buf.drop s.pos).take (s.max - s.pos) ++
          s.buf.drop (s.max - s.pos)).take (s.max - s.pos) =
          (s.buf.drop s.pos).take (s.max - s.pos) :=
        List.take_left' hAlen
      rw [hc]
      refine ⟨rfl, rfl, ?_, rfl⟩
      show (((s.buf.drop s.pos).take (s.max - s.pos) ++
          s.buf.drop (s.max - s.pos)).take (s.max - s.pos)
        ++ msg ++
        ((s.buf.drop s.pos).take (s.max - s.pos) ++
          s.buf.drop (s.max - s.pos)).drop
          (s.max - s.pos + msg.length)).take (s.max - s.pos + msg.length) =
        (s.buf.drop s.pos).take (s.max - s.pos) ++ msg
      rw [hA, List.append_assoc,
        show s.max - s.pos + msg.length =
          ((s.buf.drop s.pos).take (s.max - s.pos)).length + msg.length
          from by rw [hAlen],
        List.take_append, List.take_left' rfl]

/-- Witness for C5: compaction of 70 unsent bytes followed by a 2-byte
encode. -/
theorem console_sendf_reset_then_compacts_witness :
    (console_sendf [9, 9] 10 ⟨List.replicate 96 3, 20, 90, 1⟩).1.pos = 0 ∧
    (console_sendf [9, 9] 10 ⟨List.replicate 96 3, 20, 90, 1⟩).1.max = 72 ∧
    (console_sendf [9, 9] 10 ⟨List.replicate 96 3, 20, 90, 1⟩).2 = true :=
  have h := (console_sendf_reset_then_compacts [9, 9] 10
    ⟨List.replicate 96 3, 20, 90, 1⟩ (by decide) (by decide) (by decide)
    (by decide)).2 (by decide) (by decide)
  ⟨h.1, h.2.1.trans (by decide), h.2.2.2⟩

/-- C9: both operations that touch the transmit buffer — the transmit
task and `console_sendf` — preserve `0 ≤ position ≤ limit ≤ capacity`
(and the 96-byte backing store), assuming the external encoder writes at
most its declared `max_size` bytes. -/
theorem transmit_invariant_preserved :
    (∀ (wake : Bool) (send : Nat → Int) (s : TxState),
      TxInv s → TxInv (canbus_tx_task wake send s).1) ∧
    (∀ (msg : List Nat) (max_size : Nat) (s : TxState),
      msg.length ≤ max_size → TxInv s →
      TxInv (console_sendf msg max_size s).1) := by
  have hcore : ∀ (msg : List Nat) (max_size : Nat) (s : TxState)
      (tpos tmax : Nat), msg.length ≤ max_size → tpos ≤ tmax →
      tmax ≤ TRANSMIT_CAP → s.buf.length = TRANSMIT_CAP →
      TxInv (console_sendf_core msg max_size s tpos tmax).1 := by
    intro msg max_size s tpos tmax hms h1 h2 h3
    by_cases hc1 : TRANSMIT_CAP < tmax + max_size
    · by_cases hc2 : TRANSMIT_CAP < tmax + max_size - tpos
      · rw [console_sendf_core_drop _ _ _ _ _ hc1 hc2]
        exact ⟨h1, h2, h3⟩
      · rw [console_sendf_core_compact _ _ _ _ _ hc1 hc2]
        refine ⟨Nat.zero_le _, ?_, ?_⟩
        · show tmax - tpos + msg.length ≤ TRANSMIT_CAP
          omega
        · show (((s.buf.drop tpos).take (tmax - tpos) ++
              s.buf.drop (tmax - tpos)).take (tmax - tpos)
            ++ msg ++
            ((s.buf.drop tpos).take (tmax - tpos) ++
              s.buf.drop (tmax - tpos)).drop
              (tmax - tpos + msg.length)).length = TRANSMIT_CAP
          simp only [List.length_append, List.length_take, List.length_drop,
            h3]
          omega
    · rw [console_sendf_core_fit _ _ _ _ _ hc1]
      refine ⟨?_, ?_, ?_⟩
      · show tpos ≤ tmax + msg.length
        omega
      · show tmax + msg.length ≤ TRANSMIT_CAP
        omega
      · show (s.buf.take tmax ++ msg ++
            s.buf.drop (tmax + msg.length)).length = TRANSMIT_CAP
        simp only [List.length_append, List.length_take, List.length_drop, h3]
        omega
  constructor
  · intro wake send s hinv
    obtain ⟨h1, h2, h3⟩ := hinv
    rw [canbus_tx_task]
    by_cases hw : wake = true
    · rw [if_neg (not_not_intro hw)]
      by_cases ha : s.assigned = 0
      · rw [if_pos ha]
        exact ⟨le_rfl, Nat.zero_le _, h3⟩
      · rw [if_neg ha]
        obtain ⟨hb1, hb2⟩ :=
          txLoop_bounds send (s.assigned + 1) s.buf s.pos s.max 0
        refine ⟨?_, h2, h3⟩
        show (txLoop send (s.assigned + 1) s.buf s.pos s.max 0).1 ≤ s.max
        omega
    · rw [if_pos hw]
      exact ⟨h1, h2, h3⟩
  · intro msg max_size s hms hinv
    obtain ⟨h1, h2, h3⟩ := hinv
    rw [console_sendf]
    by_cases hr : s.max ≤ s.pos
    · rw [if_pos hr]
      exact hcore msg max_size s 0 0 hms le_rfl (Nat.zero_le _) h3
    · rw [if_neg hr]
      exact hcore msg max_size s s.pos s.max hms h1 h2 h3

/-- Witness for C9 on a concrete state, one tx run and one enqueue. -/
theorem transmit_invariant_preserved_witness :
    TxInv (canbus_tx_task true (fun _ => 1)
      ⟨List.replicate 96 0, 3, 9, 5⟩).1 ∧
    TxInv (console_sendf [1] 4 ⟨List.replicate 96 0, 3, 9, 5⟩).1 :=
  ⟨transmit_invariant_preserved.1 true (fun _ => 1)
      ⟨List.replicate 96 0, 3, 9, 5⟩ (by decide),
    transmit_invariant_preserved.2 [1] 4 ⟨List.replicate 96 0, 3, 9, 5⟩
      (by decide) (by decide)⟩

/-- C3: the transmit task: with no assigned address it discards the
whole buffer without sending; with an assigned address it sends successive
chunks of at most 8 pending bytes addressed to `AssignedAddress + 1`,
advancing `position` exactly over the accepted bytes, stopping at the first
non-positive send result with `position` left there; and any sequence of
enqueues whose declared sizes fit the buffer reaches the wire in exact
FIFO order, chunked into pieces of at most 8 bytes. -/
theorem canbus_tx_task_fifo :
    (∀ (send : Nat → Int) (s : TxState), s.assigned = 0 →
      canbus_tx_task true send s = ({ s with pos := 0, max := 0 }, [])) ∧
    (∀ (send : Nat → Int) (s : TxState), s.assigned ≠ 0 → s.pos ≤ s.max →
      s.pos ≤ (canbus_tx_task true send s).1.pos ∧
      (canbus_tx_task true send s).1.pos ≤ s.max ∧
      (canbus_tx_task true send s).1.max = s.max ∧
      (∀ f ∈ (canbus_tx_task true send s).2,
        f.fid = s.assigned + 1 ∧ f.payload.length ≤ 8) ∧
      ((canbus_tx_task true send s).2.map Frame.payload).flatten =
        (s.buf.drop s.pos).take ((canbus_tx_task true send s).1.pos - s.pos) ∧
      ((canbus_tx_task true send s).1.pos = s.max ∨
        send ((canbus_tx_task true send s).2.length) ≤ 0)) ∧
    (∀ (msgs : List (List Nat × Nat)) (buf0 : List Nat) (a : Nat)
        (send : Nat → Int), a ≠ 0 → buf0.length = TRANSMIT_CAP →
      (∀ p ∈ msgs, (p : List Nat × Nat).1.length ≤ p.2) →
      (msgs.map Prod.snd).sum ≤ TRANSMIT_CAP → (∀ j, 0 < send j) →
      (canbus_tx_task true send (enqueueAll msgs ⟨buf0, 0, 0, a⟩)).2 =
        (chunk8 (msgs.map Prod.fst).flatten).map (fun c => ⟨a + 1, c⟩) ∧
      (∀ c ∈ chunk8 (msgs.map Prod.fst).flatten, c.length ≤ 8) ∧
      (canbus_tx_task true send (enqueueAll msgs ⟨buf0, 0, 0, a⟩)).1.pos =
        (msgs.map (fun p => p.1.length)).sum) := by
  refine ⟨fun send s h0 => ?_, fun send s ha hle => ?_,
    fun msgs buf0 a send ha hb0 hall hbud hsend => ?_⟩
  · rw [canbus_tx_task, if_neg (not_not_intro rfl), if_pos h0]
  · have hT : canbus_tx_task true send s =
        ({ s with pos := (txLoop send (s.assigned + 1) s.buf s.pos s.max 0).1 },
          (txLoop send (s.assigned + 1) s.buf s.pos s.max 0).2) := by
      rw [canbus_tx_task, if_neg (not_not_intro rfl), if_neg ha]
    obtain ⟨hb1, hb2⟩ := txLoop_bounds send (s.assigned + 1) s.buf s.pos s.max 0
    obtain ⟨hf, hj, hstop⟩ :=
      txLoop_frames send (s.assigned + 1) s.buf s.pos s.max 0
    rw [hT]
    refine ⟨hb1, ?_, rfl, hf, hj, ?_⟩
    · show (txLoop send (s.assigned + 1) s.buf s.pos s.max 0).1 ≤ s.max
      omega
    · rcases hstop hle with h | h
      · exact Or.inl h
      · refine Or.inr ?_
        show send ((txLoop send (s.assigned + 1) s.buf s.pos s.max 0).2.length) ≤ 0
        have hz : (0:Nat) +
            (txLoop send (s.assigned + 1) s.buf s.pos s.max 0).2.length =
            (txLoop send (s.assigned + 1) s.buf s.pos s.max 0).2.length := by
          omega
        rw [← hz]
        exact h
  · obtain ⟨e1, e2, e3, e4, e5⟩ := enqueueAll_spec msgs ⟨buf0, 0, 0, a⟩ rfl hb0
      hall (by simpa using hbud)
    have e2' : (enqueueAll msgs ⟨buf0, 0, 0, a⟩).max =
        (msgs.map (fun p => p.1.length)).sum := by
      rw [e2]
      show 0 + _ = _
      omega
    have e4' : (enqueueAll msgs ⟨buf0, 0, 0, a⟩).assigned = a := e4
    have hsum : (msgs.map (fun p => p.1.length)).sum ≤
        (msgs.map Prod.snd).sum := List.sum_le_sum hall
    have hml : (enqueueAll msgs ⟨buf0, 0, 0, a⟩).max ≤
        (enqueueAll msgs ⟨buf0, 0, 0, a⟩).buf.length := by
      rw [e2', e3]
      omega
    have hloop := txLoop_success send
      ((enqueueAll msgs ⟨buf0, 0, 0, a⟩).assigned + 1)
      (enqueueAll msgs ⟨buf0, 0, 0, a⟩).buf hsend
      (enqueueAll msgs ⟨buf0, 0, 0, a⟩).pos
      (enqueueAll msgs ⟨buf0, 0, 0, a⟩).max 0
      (by rw [e1]; exact Nat.zero_le _) hml
    have hslice : ((enqueueAll msgs ⟨buf0, 0, 0, a⟩).buf.drop
        (enqueueAll msgs ⟨buf0, 0, 0, a⟩).pos).take
        ((enqueueAll msgs ⟨buf0, 0, 0, a⟩).max -
          (enqueueAll msgs ⟨buf0, 0, 0, a⟩).pos) =
        (msgs.map Prod.fst).flatten := by
      rw [e1, List.drop_zero, Nat.sub_zero, e5]
      rfl
    rw [hslice, e4'] at hloop
    have hT : canbus_tx_task true send (enqueueAll msgs ⟨buf0, 0, 0, a⟩) =
        (⟨(enqueueAll msgs ⟨buf0, 0, 0, a⟩).buf,
            (txLoop send (a + 1)
              (enqueueAll msgs ⟨buf0, 0, 0, a⟩).buf
              (enqueueAll msgs ⟨buf0, 0, 0, a⟩).pos
              (enqueueAll msgs ⟨buf0, 0, 0, a⟩).max 0).1,
            (enqueueAll msgs ⟨buf0, 0, 0, a⟩).max, a⟩,
          (txLoop send (a + 1) (enqueueAll msgs ⟨buf0, 0, 0, a⟩).buf
            (enqueueAll msgs ⟨buf0, 0, 0, a⟩).pos
            (enqueueAll msgs ⟨buf0, 0, 0, a⟩).max 0).2) := by
      rw [canbus_tx_task, if_neg (not_not_intro rfl),
        if_neg (by rw [e4']; exact ha)]
      show ((⟨(enqueueAll msgs ⟨buf0, 0, 0, a⟩).buf,
          (txLoop send ((enqueueAll msgs ⟨buf0, 0, 0, a⟩).assigned + 1)
            (enqueueAll msgs ⟨buf0, 0, 0, a⟩).buf
            (enqueueAll msgs ⟨buf0, 0, 0, a⟩).pos
            (enqueueAll msgs ⟨buf0, 0, 0, a⟩).max 0).1,
          (enqueueAll msgs ⟨buf0, 0, 0, a⟩).max,
          (enqueueAll msgs ⟨buf0, 0, 0, a⟩).assigned⟩ : TxState),
        (txLoop send ((enqueueAll msgs ⟨buf0, 0, 0, a⟩).assigned + 1)
          (enqueueAll msgs ⟨buf0, 0, 0, a⟩).buf
          (enqueueAll msgs ⟨buf0, 0, 0, a⟩).pos
          (enqueueAll msgs ⟨buf0, 0, 0, a⟩).max 0).2) = _
      rw [e4']
    rw [hT]
    refine ⟨?_, chunk8_length_le _, ?_⟩
    · show (txLoop send (a + 1) (enqueueAll msgs ⟨buf0, 0, 0, a⟩).buf
        (enqueueAll msgs ⟨buf0, 0, 0, a⟩).pos
        (enqueueAll msgs ⟨buf0, 0, 0, a⟩).max 0).2 =
        (chunk8 (msgs.map Prod.fst).flatten).map (fun c => ⟨a + 1, c⟩)
      rw [hloop]
    · show (txLoop send (a + 1) (enqueueAll msgs ⟨buf0, 0, 0, a⟩).buf
        (enqueueAll msgs ⟨buf0, 0, 0, a⟩).pos
        (enqueueAll msgs ⟨buf0, 0, 0, a⟩).max 0).1 =
        (msgs.map (fun p => p.1.length)).sum
      rw [hloop]
      exact e2'

/-- Witness for C3: unassigned discard, and two enqueued messages reaching
the wire as one 5-byte frame to address `a + 1`. -/
theorem canbus_tx_task_fifo_witness :
    canbus_tx_task true (fun _ => 1) ⟨List.replicate 96 0, 0, 5, 0⟩ =
      (⟨List.replicate 96 0, 0, 0, 0⟩, []) ∧
    (canbus_tx_task true (fun _ => 1)
        (enqueueAll [([1, 2, 3], 3), ([4, 5], 2)]
          ⟨List.replicate 96 0, 0, 0, 2⟩)).2 =
      (chunk8 [1, 2, 3, 4, 5]).map (fun c => ⟨3, c⟩) := by
  constructor
  · exact canbus_tx_task_fifo.1 (fun _ => 1) ⟨List.replicate 96 0, 0, 5, 0⟩ rfl
  · have h := (canbus_tx_task_fifo.2.2 [([1, 2, 3], 3), ([4, 5], 2)]
      (List.replicate 96 0) 2 (fun _ => 1) (by decide) (by decide) (by decide)
      (by decide) (fun _ => Int.one_pos)).1
    rw [h]
    rfl

/-! ### Theorems: receive pipeline -/

/-- C6: each appended data frame copies at most `capacity - position`
payload bytes (the excess is dropped), `receive_pos` never exceeds the
192-byte capacity, and the backing store never grows (no out-of-bounds
write), no matter how many frames one wake drains. -/
theorem receive_buffer_never_overflows :
    (∀ (data : List Nat) (r : RxState), r.pos ≤ RECEIVE_CAP →
      (can_process_data data r).pos =
        r.pos + min data.length (RECEIVE_CAP - r.pos) ∧
      (can_process_data data r).pos - r.pos ≤ RECEIVE_CAP - r.pos ∧
      (can_process_data data r).pos ≤ RECEIVE_CAP ∧
      (r.buf.length = RECEIVE_CAP →
        (can_process_data data r).buf.length = RECEIVE_CAP)) ∧
    (∀ (payloads : List (List Nat)) (r : RxState),
      r.pos ≤ RECEIVE_CAP → r.buf.length = RECEIVE_CAP →
      (rx_drain payloads r).pos ≤ RECEIVE_CAP ∧
      (rx_drain payloads r).buf.length = RECEIVE_CAP) := by
  have hone : ∀ (data : List Nat) (r : RxState), r.pos ≤ RECEIVE_CAP →
      (can_process_data data r).pos =
        r.pos + min data.length (RECEIVE_CAP - r.pos) ∧
      (can_process_data data r).pos - r.pos ≤ RECEIVE_CAP - r.pos ∧
      (can_process_data data r).pos ≤ RECEIVE_CAP ∧
      (r.buf.length = RECEIVE_CAP →
        (can_process_data data r).buf.length = RECEIVE_CAP) := by
    intro data r hpos
    refine ⟨rfl, ?_, ?_, ?_⟩
    · show r.pos + min data.length (RECEIVE_CAP - r.pos) - r.pos ≤
        RECEIVE_CAP - r.pos
      omega
    · show r.pos + min data.length (RECEIVE_CAP - r.pos) ≤ RECEIVE_CAP
      omega
    · intro hlen
      show (r.buf.take r.pos ++
          data.take (min data.length (RECEIVE_CAP - r.pos)) ++
          r.buf.drop (r.pos + min data.length (RECEIVE_CAP - r.pos))).length =
        RECEIVE_CAP
      simp only [List.length_append, List.length_take, List.length_drop, hlen]
      omega
  refine ⟨hone, fun payloads => ?_⟩
  induction payloads with
  | nil =>
      intro r h1 h2
      exact ⟨h1, h2⟩
  | cons d rest ih =>
      intro r h1 h2
      have hstep := hone d r h1
      have hd : rx_drain (d :: rest) r = rx_drain rest (can_process_data d r) :=
        rfl
      rw [hd]
      exact ih (can_process_data d r) hstep.2.2.1 (hstep.2.2.2 h2)

/-- Witness for C6: a 10-byte frame into a buffer with 4 bytes of room
copies 4 bytes, and a two-frame drain stays within capacity. -/
theorem receive_buffer_never_overflows_witness :
    (can_process_data (List.replicate 10 1)
      ⟨List.replicate 192 0, 188⟩).pos = 192 ∧
    (rx_drain [List.replicate 8 1, List.replicate 8 2]
      ⟨List.replicate 192 0, 180⟩).pos ≤ RECEIVE_CAP :=
  ⟨(((receive_buffer_never_overflows).1 (List.replicate 10 1)
      ⟨List.replicate 192 0, 188⟩ (by decide)).1).trans (by decide),
    ((receive_buffer_never_overflows).2
      [List.replicate 8 1, List.replicate 8 2]
      ⟨List.replicate 192 0, 180⟩ (by decide) (by simp [RECEIVE_CAP])).1⟩

/-- C7: after the drain, if the boundary detector consumed `pop_count`
of the `rpos` buffered bytes: with bytes remaining, they are shifted to the
buffer start, the fill length becomes the remainder, and the task is
re-signalled; with everything consumed the fill length becomes 0 without a
re-signal; with no complete message nothing changes. -/
theorem rx_dispatch_step_shifts
    (found : Bool) (pop_count : Nat) (r : RxState)
    (hpop : pop_count ≤ r.pos) :
    (found = true → pop_count < r.pos →
      canbus_rx_dispatch_step found pop_count r =
        (⟨(r.buf.drop pop_count).take (r.pos - pop_count) ++
            r.buf.drop (r.pos - pop_count), r.pos - pop_count⟩, true)) ∧
    (found = true → pop_count = r.pos →
      canbus_rx_dispatch_step found pop_count r = (⟨r.buf, 0⟩, false)) ∧
    (found = false →
      canbus_rx_dispatch_step found pop_count r = (r, false)) := by
  refine ⟨fun hf hlt => ?_, fun hf heq => ?_, fun hf => ?_⟩
  · have hne : r.pos - pop_count ≠ 0 := by omega
    rw [canbus_rx_dispatch_step, if_pos hf, if_pos hne]
  · have h0 : r.pos - pop_count = 0 := by omega
    rw [canbus_rx_dispatch_step, if_pos hf,
      if_neg (not_not_intro h0), h0]
  · have hnf : ¬ found = true := by simp [hf]
    rw [canbus_rx_dispatch_step, if_neg hnf]

/-- Witness for C7: 6 buffered bytes, 2 consumed, 4 shifted down and the
task re-signalled. -/
theorem rx_dispatch_step_shifts_witness :
    canbus_rx_dispatch_step true 2 ⟨List.replicate 192 5, 6⟩ =
      (⟨((List.replicate 192 5).drop 2).take (6 - 2) ++
          (List.replicate 192 5).drop (6 - 2), 6 - 2⟩, true) :=
  (rx_dispatch_step_shifts true 2 ⟨List.replicate 192 5, 6⟩
    (by decide)).1 rfl (by decide)

end Canbus
